import Mathlib

/-!
# Verification of the turbo logging bootstrap (`log.go`)

The development embeds `log.go` of package `turbo`:

* `ContextHook.Levels`, `ContextHook.Fire` (the caller locator),
* `setupLoggerFile` (log directory resolution, directory creation, file opening),
* `initLogger` (production versus non-production configuration),
* `SetOutput` (output override).

Go strings are modelled as lists of characters (`GoString`), that is as valid
UTF-8 text.  The functions of the Go standard library that `log.go` calls
(`strings.TrimSpace`, `strings.Contains`, `path.IsAbs`, `path.Clean`,
`path.Base`) are transcribed from the standard library; `'/'` and `'.'` are
single-byte characters, so working on characters instead of bytes does not
change what these functions compute on valid UTF-8 input.
-/

set_option autoImplicit false

namespace Turbo

/-- A Go `string`, as the list of its characters. -/
abbrev GoString := List Char

/-! ## Go standard library: `unicode`, `strings` -/

/-- `unicode.IsSpace`: the Latin-1 space characters `'\t'`, `'\n'`, `'\v'`,
`'\f'`, `'\r'`, `' '`, U+0085, U+00A0, and outside Latin-1 the characters with
the `White_Space` property. -/
def isSpace (c : Char) : Bool :=
  let n := c.toNat
  if n ≤ 0xFF then
    n == 0x09 || n == 0x0A || n == 0x0B || n == 0x0C || n == 0x0D || n == 0x20
      || n == 0x85 || n == 0xA0
  else
    n == 0x1680 || (0x2000 ≤ n && n ≤ 0x200A) || n == 0x2028 || n == 0x2029
      || n == 0x202F || n == 0x205F || n == 0x3000

/-- `strings.TrimSpace`: the string without its leading and trailing white
space, as defined by `unicode.IsSpace`. -/
def TrimSpace (s : GoString) : GoString :=
  ((s.dropWhile isSpace).reverse.dropWhile isSpace).reverse

/-- `strings.HasPrefix s prefix`, with the candidate prefix first. -/
def hasPrefix : GoString → GoString → Bool
  | [], _ => true
  | _ :: _, [] => false
  | a :: as, b :: bs => a == b && hasPrefix as bs

/-- `strings.Contains s substr`: `substr` occurs in `s` at some position. -/
def Contains : GoString → GoString → Bool
  | [], substr => hasPrefix substr []
  | c :: s, substr => hasPrefix substr (c :: s) || Contains s substr

/-! ## Go standard library: `path` -/

/-- `path.IsAbs`: `len(path) > 0 && path[0] == '/'`. -/
def IsAbs (p : GoString) : Bool :=
  match p with
  | [] => false
  | c :: _ => c == '/'

/-- The test `r == n || path[r] == '/'` of `path.Clean`, on the unread part of
the path. -/
def atElementEnd (rest : GoString) : Bool :=
  match rest with
  | [] => true
  | c :: _ => c == '/'

/-- The `..` backtracking of `path.Clean`, entered with `out.w > dotdot`:
`out.w--` followed by `for out.w > dotdot && out.index(out.w) != '/' { out.w-- }`.
The buffer is held as a stack, last written character first, so that
`out.index(out.w)` after the decrement is the character just removed. -/
def backtrack (dotdot : Nat) : List Char → List Char
  | [] => []
  | c :: out => if dotdot < out.length && c != '/' then backtrack dotdot out else out

/-- The step `if rooted && out.w != 1 || !rooted && out.w != 0 { out.append('/') }`
of `path.Clean` ("add slash if needed"). -/
def addSlashIfNeeded (rooted : Bool) (out : List Char) : List Char :=
  if (rooted && out.length != 1) || (!rooted && out.length != 0) then '/' :: out else out

/-- The step `if out.w > 0 { out.append('/') }; out.append('.'); out.append('.')`
of `path.Clean` ("cannot backtrack, but not rooted, so append .. element"). -/
def appendDotDot (out : List Char) : List Char :=
  let out1 := if 0 < out.length then '/' :: out else out
  '.' :: '.' :: out1

/-- The main loop `for r < n { switch ... }` of `path.Clean`.  `rest` is the
unread part `path[r:]`, `out` the written part of the buffer (a stack, last
written character first; the lazy sharing of `lazybuf` with the input is not
modelled, only the buffer content), `dotdot` the index where `..` must stop.
Every iteration consumes at least one character of `rest`, so `fuel = len(path)`
is enough (`cleanLoop_fuel`). -/
def cleanLoop (rooted : Bool) : Nat → GoString → List Char → Nat → List Char
  | 0, _, out, _ => out
  | fuel + 1, rest, out, dotdot =>
    match rest with
    | [] => out
    | c :: t =>
      if c == '/' then
        -- empty path element
        cleanLoop rooted fuel t out dotdot
      else if c == '.' && atElementEnd t then
        -- . element
        cleanLoop rooted fuel t out dotdot
      else if c == '.' && t.head? == some '.' && atElementEnd t.tail then
        -- .. element: remove to last /
        if dotdot < out.length then
          -- can backtrack
          cleanLoop rooted fuel t.tail (backtrack dotdot out) dotdot
        else if !rooted then
          -- cannot backtrack, but not rooted, so append .. element.
          cleanLoop rooted fuel t.tail (appendDotDot out) (appendDotDot out).length
        else
          cleanLoop rooted fuel t.tail out dotdot
      else
        -- real path element. add slash if needed, copy element
        cleanLoop rooted fuel ((c :: t).dropWhile (· != '/'))
          (((c :: t).takeWhile (· != '/')).reverse ++ addSlashIfNeeded rooted out) dotdot

/-- `path.Clean`: the shortest path name equivalent to `path` by purely lexical
processing. -/
def Clean (path : GoString) : GoString :=
  match path with
  | [] => ['.']
  | c :: t =>
    let rooted := c == '/'
    let out :=
      if rooted then cleanLoop rooted path.length t ['/'] 1
      else cleanLoop rooted path.length path [] 0
    -- Turn empty string into "."
    if out.length == 0 then ['.'] else out.reverse

/-- `path.Base`: the last element of `path`; trailing slashes are removed
before extracting the last element; `"."` for the empty path and `"/"` for a
path of slashes only. -/
def Base (path : GoString) : GoString :=
  if path.length == 0 then ['.']
  else
    -- Strip trailing slashes.
    let stripped := path.reverse.dropWhile (· == '/')
    -- Find the last element
    let last := (stripped.takeWhile (· != '/')).reverse
    -- If empty now, it had only slashes.
    if last.length == 0 then ['/'] else last

/-! ## The logging library (logrus) as far as `log.go` uses it -/

/-- The severity levels of logrus. -/
inductive Level
  | PanicLevel | FatalLevel | ErrorLevel | WarnLevel | InfoLevel | DebugLevel | TraceLevel
  deriving DecidableEq, Repr

/-- `logger.AllLevels`: every level of the library. -/
def AllLevels : List Level :=
  [.PanicLevel, .FatalLevel, .ErrorLevel, .WarnLevel, .InfoLevel, .DebugLevel, .TraceLevel]

/-- The formatters a logger can carry: `&logger.TextFormatter{}`,
`&logger.JSONFormatter{}`, or one installed by other code. -/
inductive Formatter
  | TextFormatter | JSONFormatter | custom (id : Nat)
  deriving DecidableEq, Repr

/-- The output destinations (`io.Writer`): `os.Stderr`, a file opened under a
name, or any other writer. -/
inductive Writer
  | Stderr | File (name : GoString) | other (id : Nat)
  deriving DecidableEq, Repr

/-- The hooks that can be registered: `ContextHook{}` of this package, or a hook
of other code. -/
inductive Hook
  | ContextHook | foreign (id : Nat)
  deriving DecidableEq, Repr

/-- A `logger.Logger`: output, formatter, minimum level and the hooks of each
level (`LevelHooks`, a map from level to the hooks in registration order). -/
structure Logger where
  Out : Writer
  Formatter : Turbo.Formatter
  Level : Turbo.Level
  Hooks : Turbo.Level → List Hook

/-- A value stored in the field mapping of an entry (`interface{}`). -/
inductive Value
  | str (s : GoString) | int (n : Int) | other (id : Nat)
  deriving DecidableEq, Repr

/-- `logger.Fields`, a `map[string]interface{}`. -/
abbrev Fields := GoString → Option Value

/-- The map assignment `m[k] = v`. -/
def Fields.set (m : Fields) (k : GoString) (v : Value) : Fields :=
  fun k' => if k' = k then some v else m k'

/-- A `logger.Entry`: the field mapping `Data`, and the level and message of the
log call. -/
structure Entry where
  Data : Fields
  Level : Turbo.Level
  Message : GoString

/-! ## The runtime: call stacks -/

/-- What `runtime.FuncForPC(pc - 1)` tells about one return address of the call
stack: `fu.Name()` and `fu.FileLine(pc - 1)`. -/
structure Frame where
  name : GoString
  file : GoString
  line : Int
  deriving DecidableEq, Repr

/-- `runtime.Callers(skip, pc)` with `len(pc) = size`, on the call stack at the
call: entry 0 of `stack` is the frame of `Callers` itself, entry 1 its caller.
The result is the filled part `pc[0:cnt]`. -/
def Callers (skip size : Nat) (stack : List Frame) : List Frame :=
  (stack.drop skip).take size

/-! ## The collaborators declared outside `log.go` -/

/-- A `*Config`, as far as `log.go` reads it: the map `configs` (a missing key
reads as the empty string) and the results of the methods `Env()`,
`ServiceRootPath()` and `ServiceRootPathAbsolute()`. -/
structure Config where
  configs : GoString → GoString
  Env : GoString
  ServiceRootPath : GoString
  ServiceRootPathAbsolute : GoString

/-- A call to the filesystem made by `setupLoggerFile`. -/
inductive FSCall
  | MkdirAll (path : GoString) (perm : Nat)
  | OpenFile (name : GoString) (create wronly append : Bool) (perm : Nat)
  deriving DecidableEq, Repr

/-- The outcomes of the filesystem calls, as inputs: whether `os.MkdirAll` and
`os.OpenFile` return a nil error for a given path. -/
structure FileSystem where
  mkdirAllOk : GoString → Bool
  openFileOk : GoString → Bool

/-- Where the package variable `log` points. -/
inductive LoggerRef
  | std
  deriving DecidableEq, Repr

/-- The state `log.go` works on: the standard logger of the library (the one
`logger.SetOutput`, `logger.SetFormatter`, `logger.SetLevel`, `logger.AddHook`
change and `logger.StandardLogger()` returns), the package variable `log`
(`none` is `nil`), and the filesystem calls made so far, oldest first. -/
structure State where
  std : Logger
  log : Option LoggerRef
  calls : List FSCall

/-- How a procedure ends: it returns, or it panics with a message; either way
with the state reached. -/
inductive Result
  | ok (s : State)
  | panic (msg : String) (s : State)

/-- The state a procedure ended in. -/
def Result.state : Result → State
  | .ok s => s
  | .panic _ s => s

/-- Whether a procedure panicked. -/
def Result.panicked : Result → Bool
  | .ok _ => false
  | .panic _ _ => true

/-- `logger.AddHook(hook)` given `hook.Levels()`: the loop
`for _, level := range hook.Levels() { hooks[level] = append(hooks[level], hook) }`. -/
def addHook (hooks : Level → List Hook) (hook : Hook) : List Level → Level → List Hook
  | [] => hooks
  | level :: rest =>
    addHook (fun l => if l = level then hooks l ++ [hook] else hooks l) hook rest

/-! ## `log.go` -/

/-- `ContextHook.Levels`: `return logger.AllLevels`. -/
def ContextHook.Levels : List Level := AllLevels

/-- The string literal tested in `ContextHook.Fire`. -/
def fireMarker : GoString := "github.com/Sirupsen/logrus".toList

/-- The path under which `log.go` imports the logging library. -/
def importedLoggerPath : GoString := "github.com/sirupsen/logrus".toList

/-- The loop `for i := 0; i < cnt; i++` of `ContextHook.Fire` over the captured
frames `pc[0:cnt]`, on the field mapping of the entry. -/
def fireLoop : List Frame → Fields → Fields
  | [], data => data
  | fu :: rest, data =>
    if !Contains fu.name fireMarker then
      ((data.set "file".toList (.str (Base fu.file))).set "func".toList
        (.str (Base fu.name))).set "line".toList (.int fu.line)
      -- break
    else fireLoop rest data

/-- `ContextHook.Fire` on the call stack at its call to `runtime.Callers` (entry
0 is `Callers` itself): the entry after the call and the returned error (`none`
is `nil`). -/
def ContextHook.Fire (stack : List Frame) (entry : Entry) : Entry × Option String :=
  let pc := Callers 7 3 stack
  ({ entry with Data := fireLoop pc entry.Data }, none)

/-- The message of both panics of `setupLoggerFile`. -/
def setupPanicMessage : String :=
  "Failed to setup log path, please check your service.yaml config."

/-- The directory `setupLoggerFile` computes (the value of `logPath` after
`logPath = path.Clean(logPath)`).  `turboLogPath` is the configuration key, a
constant declared outside `log.go`. -/
def resolveLogPath (turboLogPath : GoString) (c : Config) : GoString :=
  let logPath := c.configs turboLogPath
  let logPath := if (TrimSpace logPath).length == 0 then "log".toList else logPath
  let logPath :=
    if !IsAbs logPath && (TrimSpace c.ServiceRootPath).length != 0 then
      c.ServiceRootPathAbsolute ++ "/".toList ++ logPath
    else logPath
  Clean logPath

/-- The file name `setupLoggerFile` opens: `path.Clean(logPath + "/turbo.log")`. -/
def resolveLogFile (turboLogPath : GoString) (c : Config) : GoString :=
  Clean (resolveLogPath turboLogPath c ++ "/turbo.log".toList)

/-- `setupLoggerFile`. -/
def setupLoggerFile (fs : FileSystem) (turboLogPath : GoString) (c : Config) (s : State) :
    Result :=
  let logPath := resolveLogPath turboLogPath c
  let s1 := { s with calls := s.calls ++ [.MkdirAll logPath 0o755] }
  if fs.mkdirAllOk logPath then
    let logFile := Clean (logPath ++ "/turbo.log".toList)
    let s2 := { s1 with calls := s1.calls ++ [.OpenFile logFile true true true 0o666] }
    if fs.openFileOk logFile then
      .ok { s2 with std := { s2.std with Out := .File logFile } }
    else
      .panic setupPanicMessage s2
  else
    .panic setupPanicMessage s1

/-- `initLogger`. -/
def initLogger (fs : FileSystem) (turboLogPath : GoString) (c : Config) (s : State) :
    Result :=
  if c.Env = "production".toList then
    match setupLoggerFile fs turboLogPath c s with
    | .panic msg s1 => .panic msg s1
    | .ok s1 =>
      let std := { s1.std with Formatter := .JSONFormatter }
      let std := { std with Level := .InfoLevel }
      .ok { s1 with std := std, log := some .std }
  else
    let std := { s.std with Formatter := .TextFormatter }
    let std := { std with Out := .Stderr }
    let std := { std with Level := .DebugLevel }
    let std := { std with Hooks := addHook std.Hooks .ContextHook ContextHook.Levels }
    .ok { s with std := std, log := some .std }

/-- `SetOutput`: `log.Out = out; log.Formatter = &logger.TextFormatter{}`.
Before `initLogger` has run `log` is `nil` and the assignment panics. -/
def SetOutput (out : Writer) (s : State) : Result :=
  match s.log with
  | none => .panic "invalid memory address or nil pointer dereference" s
  | some .std =>
    let std := { s.std with Out := out }
    let std := { std with Formatter := .TextFormatter }
    .ok { s with std := std }

/-! ## Concrete inputs used by the witnesses -/

/-- A configuration with service root `/srv/app` and configured log path `logs`. -/
def srvConfig : Config :=
  { configs := fun _ => "logs".toList, Env := "production".toList,
    ServiceRootPath := "/srv/app".toList, ServiceRootPathAbsolute := "/srv/app".toList }

/-- A configuration with empty service root and empty log path. -/
def emptyConfig : Config :=
  { configs := fun _ => [], Env := "production".toList,
    ServiceRootPath := [], ServiceRootPathAbsolute := [] }

/-- A frame of the logging library, named under the path `log.go` imports. -/
def loggerInfoFrame : Frame :=
  { name := "github.com/sirupsen/logrus.(*Logger).Info".toList,
    file := "/go/src/github.com/sirupsen/logrus/logger.go".toList, line := 192 }

/-- A frame of application code. -/
def appFrame : Frame :=
  { name := "github.com/vaporz/turbo.(*Server).Start".toList,
    file := "/go/src/github.com/vaporz/turbo/server.go".toList, line := 57 }

/-- A frame named under the marker `ContextHook.Fire` tests. -/
def markedFrame : Frame :=
  { name := "github.com/Sirupsen/logrus.(*Entry).Info".toList,
    file := "/go/src/github.com/Sirupsen/logrus/entry.go".toList, line := 140 }

/-- The seven innermost frames `runtime.Callers(7, pc)` skips: `Callers` itself,
`ContextHook.Fire`, and five frames of the logging library. -/
def skippedFrames : List Frame :=
  [ { name := "runtime.Callers".toList, file := "/go/src/runtime/extern.go".toList, line := 0 },
    { name := "github.com/vaporz/turbo.ContextHook.Fire".toList,
      file := "/go/src/github.com/vaporz/turbo/log.go".toList, line := 35 },
    { name := "github.com/sirupsen/logrus.LevelHooks.Fire".toList,
      file := "/go/src/github.com/sirupsen/logrus/hooks.go".toList, line := 28 },
    { name := "github.com/sirupsen/logrus.(*Entry).fireHooks".toList,
      file := "/go/src/github.com/sirupsen/logrus/entry.go".toList, line := 272 },
    { name := "github.com/sirupsen/logrus.(*Entry).log".toList,
      file := "/go/src/github.com/sirupsen/logrus/entry.go".toList, line := 241 },
    { name := "github.com/sirupsen/logrus.(*Entry).Log".toList,
      file := "/go/src/github.com/sirupsen/logrus/entry.go".toList, line := 293 },
    { name := "github.com/sirupsen/logrus.(*Entry).Info".toList,
      file := "/go/src/github.com/sirupsen/logrus/entry.go".toList, line := 310 } ]

/-- An entry with no fields. -/
def emptyEntry : Entry :=
  { Data := fun _ => none, Level := .InfoLevel, Message := "started".toList }

/-- An entry that already carries `file`, `func`, `line` and one more field. -/
def staleEntry : Entry :=
  { Data := fun k =>
      if k = "file".toList then some (.str "old.go".toList)
      else if k = "func".toList then some (.str "old".toList)
      else if k = "line".toList then some (.int 1)
      else if k = "user".toList then some (.str "ann".toList)
      else none,
    Level := .WarnLevel, Message := "again".toList }

/-- A call stack whose captured window is a marked frame, an application frame
and a frame of the library under the imported path. -/
def matchStack : List Frame := skippedFrames ++ [markedFrame, appFrame, loggerInfoFrame]

/-- A second frame of the logging library under the imported path. -/
def loggerLogfFrame : Frame :=
  { name := "github.com/sirupsen/logrus.(*Logger).Logf".toList,
    file := "/go/src/github.com/sirupsen/logrus/logger.go".toList, line := 154 }

/-- A third frame of the logging library under the imported path. -/
def loggerInfofFrame : Frame :=
  { name := "github.com/sirupsen/logrus.Infof".toList,
    file := "/go/src/github.com/sirupsen/logrus/exported.go".toList, line := 149 }

/-- A call stack whose captured window holds three frames of the logging library
under the imported path and nothing else; the application frame lies beyond the
window. -/
def libraryOnlyStack : List Frame :=
  skippedFrames ++ [loggerInfoFrame, loggerLogfFrame, loggerInfofFrame, appFrame]

/-- The state before `initLogger` runs: the standard logger as the library
creates it (standard error, text formatter, level Info, no hooks), `log` nil, no
filesystem call made. -/
def initialState : State :=
  { std := { Out := .Stderr, Formatter := .TextFormatter, Level := .InfoLevel,
             Hooks := fun _ => [] },
    log := none, calls := [] }

/-- A filesystem on which every directory creation and file opening succeeds. -/
def goodFS : FileSystem := { mkdirAllOk := fun _ => true, openFileOk := fun _ => true }

/-- A filesystem on which directories can be created and no file can be opened. -/
def readOnlyFS : FileSystem := { mkdirAllOk := fun _ => true, openFileOk := fun _ => false }

/-- A filesystem on which no directory can be created. -/
def badFS : FileSystem := { mkdirAllOk := fun _ => false, openFileOk := fun _ => true }

/-- A development configuration: the environment is not `production`. -/
def devConfig : Config :=
  { configs := fun _ => [], Env := "development".toList,
    ServiceRootPath := [], ServiceRootPathAbsolute := [] }

/-- A configuration whose environment is the empty string. -/
def unsetEnvConfig : Config :=
  { configs := fun _ => "/var/log".toList, Env := [],
    ServiceRootPath := "app".toList, ServiceRootPathAbsolute := "/go/src/app".toList }

/-! ## The shape of a cleaned path (used in the proofs about `path.Clean`) -/

/-- A real path element: not empty, without `/`, and neither `.` nor `..`. -/
def Normal (e : List Char) : Prop :=
  e ≠ [] ∧ (∀ ch ∈ e, ch ≠ '/') ∧ e ≠ ['.'] ∧ e ≠ ['.', '.']

/-- The buffer after `k` leading `..` elements were appended to the empty
buffer: `../../..` (as a stack). -/
def dotdots : Nat → List Char
  | 0 => []
  | k + 1 => appendDotDot (dotdots k)

/-- The buffer after the real elements `es` (last written first) were appended
on top of the buffer `base`. -/
def stackOf (rooted : Bool) (base : List Char) : List (List Char) → List Char
  | [] => base
  | e :: es => e.reverse ++ addSlashIfNeeded rooted (stackOf rooted base es)

/-- The buffers `path.Clean` starts from and never backtracks below: `/` for a
rooted path, a run of `..` elements otherwise. -/
def IsBase : Bool → List Char → Prop
  | true, base => base = ['/']
  | false, base => ∃ k, base = dotdots k

/-- The loop invariant of `path.Clean`: the buffer is a base followed by real
elements, and `dotdot` is the length of the base. -/
def CleanInv (rooted : Bool) (out : List Char) (dotdot : Nat) : Prop :=
  ∃ base es, IsBase rooted base ∧ (∀ e ∈ es, Normal e) ∧
    out = stackOf rooted base es ∧ dotdot = base.length

/-- The loop of `path.Clean` with the fuel `Clean` gives it for the unread part
`rest`. -/
def cleanRun (rooted : Bool) (rest out : List Char) (dotdot : Nat) : List Char :=
  cleanLoop rooted rest.length rest out dotdot

/-- The buffer `path.Clean` starts with: `/` for a rooted path, empty otherwise. -/
def rootOf (rooted : Bool) : List Char := if rooted then ['/'] else []

/-! ## Lemmas on the standard library functions -/

theorem trimSpace_eq_nil_iff (s : GoString) :
    TrimSpace s = [] ↔ ∀ ch ∈ s, isSpace ch = true := by
  unfold TrimSpace
  rw [List.reverse_eq_nil_iff, List.dropWhile_eq_nil_iff]
  constructor
  · intro h ch hch
    by_cases hs : isSpace ch = true
    · exact hs
    · have hsplit := List.takeWhile_append_dropWhile isSpace s
      rw [← hsplit] at hch
      rcases List.mem_append.mp hch with h1 | h2
      · exact List.mem_takeWhile_imp h1
      · exact h _ (List.mem_reverse.mpr h2)
  · intro h ch hch
    exact h ch ((List.dropWhile_sublist isSpace).subset (List.mem_reverse.mp hch))

theorem trimSpace_length_eq_zero_iff (s : GoString) :
    ((TrimSpace s).length == 0) = true ↔ ∀ ch ∈ s, isSpace ch = true := by
  rw [← trimSpace_eq_nil_iff]
  simp

theorem trimSpace_length_ne_zero_iff (s : GoString) :
    ((TrimSpace s).length != 0) = true ↔ TrimSpace s ≠ [] := by
  simp

theorem isAbs_iff (p : GoString) : IsAbs p = true ↔ ∃ t, p = '/' :: t := by
  cases p with
  | nil => simp [IsAbs]
  | cons c t => simp [IsAbs]

theorem trimSpace_ne_nil_of_isAbs (p : GoString) (h : IsAbs p = true) :
    TrimSpace p ≠ [] := by
  obtain ⟨t, rfl⟩ := (isAbs_iff p).mp h
  intro hnil
  have := (trimSpace_eq_nil_iff _).mp hnil '/' (List.mem_cons_self _ _)
  revert this
  decide

/-! ## Path resolution in `setupLoggerFile` -/

/-- The directory for a blank configured path. -/
theorem resolveLogPath_of_blank (key : GoString) (c : Config)
    (h : ∀ ch ∈ c.configs key, isSpace ch = true) :
    resolveLogPath key c =
      Clean (if (TrimSpace c.ServiceRootPath).length != 0
        then c.ServiceRootPathAbsolute ++ "/log".toList else "log".toList) := by
  have hb := (trimSpace_length_eq_zero_iff _).mpr h
  unfold resolveLogPath
  simp only [hb, if_true]
  have hrel : IsAbs "log".toList = false := by decide
  simp only [hrel, Bool.not_false, Bool.true_and]
  split
  · congr 1
    simp
  · rfl

/-- The directory for a configured path that is not blank. -/
theorem resolveLogPath_of_not_blank (key : GoString) (c : Config)
    (h : TrimSpace (c.configs key) ≠ []) :
    resolveLogPath key c =
      Clean (if !IsAbs (c.configs key) && (TrimSpace c.ServiceRootPath).length != 0
        then c.ServiceRootPathAbsolute ++ "/".toList ++ c.configs key
        else c.configs key) := by
  have hb : ((TrimSpace (c.configs key)).length == 0) = false := by
    simpa using h
  unfold resolveLogPath
  simp only [hb, Bool.false_eq_true, if_false]

/-- The directory for an absolute configured path. -/
theorem resolveLogPath_of_isAbs (key : GoString) (c : Config) (h : IsAbs (c.configs key) = true) :
    resolveLogPath key c = Clean (c.configs key) := by
  rw [resolveLogPath_of_not_blank _ _ (trimSpace_ne_nil_of_isAbs _ h)]
  simp only [h, Bool.not_true, Bool.false_and, Bool.false_eq_true, if_false]

/-- C1. Blank configured log path: when the configured log path is empty or
consists only of white space, the directory `setupLoggerFile` resolves is
`"log"` if the service root (`ServiceRootPath()`) is empty or white space only,
and `path.Clean` of the service root (as `ServiceRootPathAbsolute()` returns it)
followed by `"/log"` if the service root is non-empty after trimming. -/
theorem C1_resolveLogPath_blank (key : GoString) (c : Config)
    (h : ∀ ch ∈ c.configs key, isSpace ch = true) :
    ((∀ ch ∈ c.ServiceRootPath, isSpace ch = true) →
        resolveLogPath key c = "log".toList) ∧
    (TrimSpace c.ServiceRootPath ≠ [] →
        resolveLogPath key c = Clean (c.ServiceRootPathAbsolute ++ "/log".toList)) := by
  rw [resolveLogPath_of_blank key c h]
  constructor
  · intro hr
    have hb := (trimSpace_eq_nil_iff _).mpr hr
    have h0 : ((([] : GoString).length != 0) = true) = False := by simp
    simp only [hb, h0, if_false]
    decide
  · intro hr
    have hb := (trimSpace_length_ne_zero_iff _).mpr hr
    simp only [hb, if_true]

/-- Witness of C1: configured path `""` and service root `""` give the directory
`"log"`. -/
theorem C1_resolveLogPath_blank_witness :
    resolveLogPath "turbo_log_path".toList
        { configs := fun _ => [], Env := "production".toList,
          ServiceRootPath := [], ServiceRootPathAbsolute := [] } = "log".toList ∧
    resolveLogPath "turbo_log_path".toList
        { configs := fun _ => "  ".toList, Env := "production".toList,
          ServiceRootPath := "app".toList, ServiceRootPathAbsolute := "/go/src/app".toList }
      = "/go/src/app/log".toList :=
  ⟨(C1_resolveLogPath_blank "turbo_log_path".toList
      { configs := fun _ => [], Env := "production".toList,
        ServiceRootPath := [], ServiceRootPathAbsolute := [] }
      (by decide)).1 (by decide),
   ((C1_resolveLogPath_blank "turbo_log_path".toList
      { configs := fun _ => "  ".toList, Env := "production".toList,
        ServiceRootPath := "app".toList, ServiceRootPathAbsolute := "/go/src/app".toList }
      (by decide)).2 (by decide)).trans (by decide)⟩

/-- C2. Absolute configured log path: when the configured log path is absolute,
the directory `setupLoggerFile` resolves is `path.Clean` of the configured path,
whatever `ServiceRootPath()` and `ServiceRootPathAbsolute()` return; a
configured path that is already clean is the result unchanged. -/
theorem C2_resolveLogPath_absolute (key : GoString) (configs : GoString → GoString)
    (env root rootAbs : GoString) (h : IsAbs (configs key) = true) :
    resolveLogPath key
        { configs := configs, Env := env, ServiceRootPath := root,
          ServiceRootPathAbsolute := rootAbs } = Clean (configs key) ∧
    (Clean (configs key) = configs key →
      resolveLogPath key
        { configs := configs, Env := env, ServiceRootPath := root,
          ServiceRootPathAbsolute := rootAbs } = configs key) := by
  have hres : resolveLogPath key
        { configs := configs, Env := env, ServiceRootPath := root,
          ServiceRootPathAbsolute := rootAbs } = Clean (configs key) :=
    resolveLogPath_of_isAbs key _ h
  exact ⟨hres, fun hc => hres.trans hc⟩

/-- Witness of C2: `"/var/log/turbo"` stays `"/var/log/turbo"` and
`"/var//log/../log/"` becomes `"/var/log"`, under a non-empty service root. -/
theorem C2_resolveLogPath_absolute_witness :
    resolveLogPath "turbo_log_path".toList
        { configs := fun _ => "/var/log/turbo".toList, Env := [],
          ServiceRootPath := "app".toList, ServiceRootPathAbsolute := "/go/src/app".toList }
      = "/var/log/turbo".toList ∧
    resolveLogPath "turbo_log_path".toList
        { configs := fun _ => "/var//log/../log/".toList, Env := [],
          ServiceRootPath := "app".toList, ServiceRootPathAbsolute := "/go/src/app".toList }
      = "/var/log".toList :=
  ⟨(C2_resolveLogPath_absolute "turbo_log_path".toList (fun _ => "/var/log/turbo".toList)
      [] "app".toList "/go/src/app".toList (by decide)).2 (by decide),
   (C2_resolveLogPath_absolute "turbo_log_path".toList (fun _ => "/var//log/../log/".toList)
      [] "app".toList "/go/src/app".toList (by decide)).1.trans (by decide)⟩

/-- C3. Relative configured log path: when the configured log path is not blank
and not absolute and the service root (`ServiceRootPath()`) is non-empty after
trimming, the directory is `path.Clean` of the service root (as
`ServiceRootPathAbsolute()` returns it), `"/"` and the configured path, and the
file `setupLoggerFile` opens after creating that directory is `path.Clean` of
the directory followed by `"/turbo.log"`. -/
theorem C3_resolveLogPath_relative (fs : FileSystem) (key : GoString) (c : Config) (s : State)
    (hcfg : TrimSpace (c.configs key) ≠ []) (hrel : IsAbs (c.configs key) = false)
    (hroot : TrimSpace c.ServiceRootPath ≠ []) :
    resolveLogPath key c = Clean (c.ServiceRootPathAbsolute ++ "/".toList ++ c.configs key) ∧
    resolveLogFile key c = Clean (resolveLogPath key c ++ "/turbo.log".toList) ∧
    (fs.mkdirAllOk (resolveLogPath key c) = true →
      (setupLoggerFile fs key c s).state.calls =
        s.calls ++ [.MkdirAll (resolveLogPath key c) 0o755,
          .OpenFile (resolveLogFile key c) true true true 0o666]) := by
  refine ⟨?_, rfl, ?_⟩
  · rw [resolveLogPath_of_not_blank key c hcfg]
    have hb := (trimSpace_length_ne_zero_iff _).mpr hroot
    simp only [hrel, hb, Bool.not_false, Bool.and_self, if_true]
  · intro hmk
    unfold setupLoggerFile resolveLogFile
    simp only [hmk, if_true]
    split <;> simp [Result.state]

/-- Witness of C3: configured path `"logs"` with service root `"/srv/app"` gives
the directory `"/srv/app/logs"` and the file `"/srv/app/logs/turbo.log"`. -/
theorem C3_resolveLogPath_relative_witness :
    resolveLogPath "turbo_log_path".toList srvConfig = "/srv/app/logs".toList ∧
    resolveLogFile "turbo_log_path".toList srvConfig = "/srv/app/logs/turbo.log".toList ∧
    (setupLoggerFile ⟨fun _ => true, fun _ => true⟩ "turbo_log_path".toList srvConfig
        ⟨⟨.Stderr, .TextFormatter, .InfoLevel, fun _ => []⟩, none, []⟩).state.calls =
      [.MkdirAll "/srv/app/logs".toList 0o755,
        .OpenFile "/srv/app/logs/turbo.log".toList true true true 0o666] := by
  have h := C3_resolveLogPath_relative ⟨fun _ => true, fun _ => true⟩
    "turbo_log_path".toList srvConfig
    ⟨⟨.Stderr, .TextFormatter, .InfoLevel, fun _ => []⟩, none, []⟩
    (by decide) (by decide) (by decide)
  have hd : Clean (srvConfig.ServiceRootPathAbsolute ++ "/".toList
      ++ srvConfig.configs "turbo_log_path".toList) = "/srv/app/logs".toList := by decide
  have hf : Clean ("/srv/app/logs".toList ++ "/turbo.log".toList)
      = "/srv/app/logs/turbo.log".toList := by decide
  obtain ⟨h1, h2, h3⟩ := h
  have h1' := h1.trans hd
  have h2' : resolveLogFile "turbo_log_path".toList srvConfig
      = "/srv/app/logs/turbo.log".toList := by rw [h2, h1', hf]
  refine ⟨h1', h2', ?_⟩
  rw [h3 rfl, h1', h2']
  rfl

/-! ## `ContextHook.Fire` -/

theorem fireLoop_of_all_marked (pc : List Frame) (data : Fields)
    (h : ∀ g ∈ pc, Contains g.name fireMarker = true) : fireLoop pc data = data := by
  induction pc with
  | nil => rfl
  | cons g rest ih =>
    have hg := h g (List.mem_cons_self _ _)
    simp only [fireLoop, hg, Bool.not_true, Bool.false_eq_true, if_false]
    exact ih (fun x hx => h x (List.mem_cons_of_mem _ hx))

theorem fireLoop_first_match (pre post : List Frame) (fu : Frame) (data : Fields)
    (hpre : ∀ g ∈ pre, Contains g.name fireMarker = true)
    (hfu : Contains fu.name fireMarker = false) :
    fireLoop (pre ++ fu :: post) data =
      ((data.set "file".toList (.str (Base fu.file))).set "func".toList
        (.str (Base fu.name))).set "line".toList (.int fu.line) := by
  induction pre with
  | nil => simp [fireLoop, hfu]
  | cons g rest ih =>
    have hg := hpre g (List.mem_cons_self _ _)
    simp only [List.cons_append, fireLoop, hg, Bool.not_true, Bool.false_eq_true, if_false]
    exact ih (fun x hx => hpre x (List.mem_cons_of_mem _ hx))

theorem exists_first_unmarked (pc : List Frame)
    (h : ∃ g ∈ pc, Contains g.name fireMarker = false) :
    ∃ pre fu post, pc = pre ++ fu :: post ∧
      (∀ g ∈ pre, Contains g.name fireMarker = true) ∧
      Contains fu.name fireMarker = false := by
  induction pc with
  | nil => obtain ⟨g, hg, _⟩ := h; cases hg
  | cons a rest ih =>
    by_cases ha : Contains a.name fireMarker = true
    · obtain ⟨g, hg, hgm⟩ := h
      have hrest : ∃ g ∈ rest, Contains g.name fireMarker = false := by
        rcases List.mem_cons.mp hg with rfl | hin
        · rw [ha] at hgm; cases hgm
        · exact ⟨g, hin, hgm⟩
      obtain ⟨pre, fu, post, hsplit, hpre, hfu⟩ := ih hrest
      refine ⟨a :: pre, fu, post, by rw [hsplit]; rfl, ?_, hfu⟩
      intro x hx
      rcases List.mem_cons.mp hx with rfl | hin
      · exact ha
      · exact hpre x hin
    · refine ⟨[], a, rest, rfl, ?_, by simpa using ha⟩
      intro x hx
      cases hx

theorem callers_length_le (skip size : Nat) (stack : List Frame) :
    (Callers skip size stack).length ≤ size := by
  unfold Callers
  simp [List.length_take]

/-- C5. `ContextHook.Fire`, match case: when some frame of the captured window
(at most 3 frames) has a function name that does not contain the marker the hook
tests, the window splits at the first such frame `fu`, `Fire` returns `nil`, and
the field mapping of the entry is the previous one with `"file"`, `"func"`,
`"line"` set to `path.Base` of the file of `fu`, `path.Base` of the name of `fu`
and the line of `fu`: values present under these keys are overwritten, every
other key keeps its value, the rest of the entry is unchanged, and the frames
after `fu` and outside the window have no influence. -/
theorem C5_fire_first_match (stack : List Frame) (entry : Entry)
    (h : ∃ g ∈ Callers 7 3 stack, Contains g.name fireMarker = false) :
    (Callers 7 3 stack).length ≤ 3 ∧
    ∃ pre fu post, Callers 7 3 stack = pre ++ fu :: post ∧
      (∀ g ∈ pre, Contains g.name fireMarker = true) ∧
      Contains fu.name fireMarker = false ∧
      (ContextHook.Fire stack entry).2 = none ∧
      (ContextHook.Fire stack entry).1.Level = entry.Level ∧
      (ContextHook.Fire stack entry).1.Message = entry.Message ∧
      (∀ k, (ContextHook.Fire stack entry).1.Data k =
        if k = "line".toList then some (.int fu.line)
        else if k = "func".toList then some (.str (Base fu.name))
        else if k = "file".toList then some (.str (Base fu.file))
        else entry.Data k) ∧
      (∀ stack2 post2, Callers 7 3 stack2 = pre ++ fu :: post2 →
        ContextHook.Fire stack2 entry = ContextHook.Fire stack entry) := by
  refine ⟨callers_length_le 7 3 stack, ?_⟩
  obtain ⟨pre, fu, post, hsplit, hpre, hfu⟩ := exists_first_unmarked _ h
  refine ⟨pre, fu, post, hsplit, hpre, hfu, rfl, rfl, rfl, ?_, ?_⟩
  · intro k
    simp only [ContextHook.Fire, hsplit, fireLoop_first_match pre post fu _ hpre hfu,
      Fields.set]
  · intro stack2 post2 h2
    simp only [ContextHook.Fire, hsplit, h2, fireLoop_first_match pre _ fu _ hpre hfu]

/-- Witness of C5: one frame under the tested marker, then an application
frame, then a frame that would match too; the stale `file`, `func`, `line` of
the entry are overwritten with the application frame and the field `user` is
kept. -/
theorem C5_fire_first_match_witness :
    (∃ pre fu post, Callers 7 3 matchStack = pre ++ fu :: post ∧
      (∀ g ∈ pre, Contains g.name fireMarker = true) ∧
      Contains fu.name fireMarker = false ∧
      (ContextHook.Fire matchStack staleEntry).2 = none ∧
      (ContextHook.Fire matchStack staleEntry).1.Level = staleEntry.Level ∧
      (ContextHook.Fire matchStack staleEntry).1.Message = staleEntry.Message ∧
      (∀ k, (ContextHook.Fire matchStack staleEntry).1.Data k =
        if k = "line".toList then some (.int fu.line)
        else if k = "func".toList then some (.str (Base fu.name))
        else if k = "file".toList then some (.str (Base fu.file))
        else staleEntry.Data k) ∧
      (∀ stack2 post2, Callers 7 3 stack2 = pre ++ fu :: post2 →
        ContextHook.Fire stack2 staleEntry = ContextHook.Fire matchStack staleEntry)) ∧
    Callers 7 3 matchStack = [markedFrame, appFrame, loggerInfoFrame] ∧
    (ContextHook.Fire matchStack staleEntry).1.Data "file".toList
      = some (.str "server.go".toList) ∧
    (ContextHook.Fire matchStack staleEntry).1.Data "func".toList
      = some (.str "turbo.(*Server).Start".toList) ∧
    (ContextHook.Fire matchStack staleEntry).1.Data "line".toList = some (.int 57) ∧
    (ContextHook.Fire matchStack staleEntry).1.Data "user".toList
      = some (.str "ann".toList) :=
  ⟨(C5_fire_first_match matchStack staleEntry ⟨appFrame, by decide, by decide⟩).2,
    by decide, by decide, by decide, by decide, by decide⟩

/-- When every frame of the captured window has a function name containing the
literal the hook tests, `Fire` returns `nil` and the entry is what it was before
the call. -/
theorem fire_of_all_marked (stack : List Frame) (entry : Entry)
    (h : ∀ g ∈ Callers 7 3 stack, Contains g.name fireMarker = true) :
    ContextHook.Fire stack entry = (entry, none) := by
  simp only [ContextHook.Fire, fireLoop_of_all_marked _ _ h]

/-- C6, evaluated on the code: the captured window holds three frames, every one
a frame of the logging library under the imported path
`github.com/sirupsen/logrus`, and the entry has no fields.  None of the names
contains the literal `Fire` tests, so `Fire` (which returns `nil`) does not leave
the field mapping as it was: it writes `file`, `func` and `line` of the first
library frame. -/
theorem C6_fire_writes_on_library_window :
    Callers 7 3 libraryOnlyStack = [loggerInfoFrame, loggerLogfFrame, loggerInfofFrame] ∧
    (∀ g ∈ Callers 7 3 libraryOnlyStack, Contains g.name importedLoggerPath = true) ∧
    (∀ g ∈ Callers 7 3 libraryOnlyStack, Contains g.name fireMarker = false) ∧
    (ContextHook.Fire libraryOnlyStack emptyEntry).2 = none ∧
    emptyEntry.Data "file".toList = none ∧
    emptyEntry.Data "func".toList = none ∧
    emptyEntry.Data "line".toList = none ∧
    (ContextHook.Fire libraryOnlyStack emptyEntry).1.Data "file".toList
      = some (.str "logger.go".toList) ∧
    (ContextHook.Fire libraryOnlyStack emptyEntry).1.Data "func".toList
      = some (.str "logrus.(*Logger).Info".toList) ∧
    (ContextHook.Fire libraryOnlyStack emptyEntry).1.Data "line".toList
      = some (.int 192) ∧
    (ContextHook.Fire libraryOnlyStack emptyEntry).1.Data ≠ emptyEntry.Data := by
  refine ⟨by decide, by decide, by decide, by decide, by decide, by decide, by decide,
    by decide, by decide, by decide, ?_⟩
  intro h
  have hfile : (ContextHook.Fire libraryOnlyStack emptyEntry).1.Data "file".toList
      = emptyEntry.Data "file".toList := by rw [h]
  revert hfile
  decide

/-- C10, evaluated on the code: a frame of the logging library under the
imported path `github.com/sirupsen/logrus` is the first captured frame; its name
contains the imported path but not the marker `Fire` tests, and `Fire` writes
this frame to the entry instead of skipping it for the application frame that
follows. -/
theorem C10_fire_writes_library_frame :
    Contains loggerInfoFrame.name importedLoggerPath = true ∧
    Contains loggerInfoFrame.name fireMarker = false ∧
    Callers 7 3 (skippedFrames ++ [loggerInfoFrame, appFrame]) = [loggerInfoFrame, appFrame] ∧
    (ContextHook.Fire (skippedFrames ++ [loggerInfoFrame, appFrame]) emptyEntry).1.Data
        "func".toList = some (.str "logrus.(*Logger).Info".toList) ∧
    (ContextHook.Fire (skippedFrames ++ [loggerInfoFrame, appFrame]) emptyEntry).1.Data
        "file".toList = some (.str "logger.go".toList) ∧
    (ContextHook.Fire (skippedFrames ++ [loggerInfoFrame, appFrame]) emptyEntry).1.Data
        "line".toList = some (.int 192) := by
  refine ⟨by decide, by decide, by decide, by decide, by decide, by decide⟩

/-! ## `setupLoggerFile`, `initLogger`, `SetOutput` -/

theorem setupLoggerFile_mkdir_failed (fs : FileSystem) (key : GoString) (c : Config)
    (s : State) (h : fs.mkdirAllOk (resolveLogPath key c) = false) :
    setupLoggerFile fs key c s =
      .panic setupPanicMessage
        { s with calls := s.calls ++ [.MkdirAll (resolveLogPath key c) 0o755] } := by
  unfold setupLoggerFile
  simp only [h, Bool.false_eq_true, if_false]

theorem setupLoggerFile_open_failed (fs : FileSystem) (key : GoString) (c : Config)
    (s : State) (hm : fs.mkdirAllOk (resolveLogPath key c) = true)
    (ho : fs.openFileOk (resolveLogFile key c) = false) :
    setupLoggerFile fs key c s =
      .panic setupPanicMessage
        { s with calls := s.calls ++ [.MkdirAll (resolveLogPath key c) 0o755,
            .OpenFile (resolveLogFile key c) true true true 0o666] } := by
  unfold resolveLogFile at ho
  unfold setupLoggerFile resolveLogFile
  simp only [hm, ho, Bool.false_eq_true, if_false, if_true, List.append_assoc,
    List.singleton_append]

theorem setupLoggerFile_ok (fs : FileSystem) (key : GoString) (c : Config)
    (s : State) (hm : fs.mkdirAllOk (resolveLogPath key c) = true)
    (ho : fs.openFileOk (resolveLogFile key c) = true) :
    setupLoggerFile fs key c s =
      .ok { std := { s.std with Out := .File (resolveLogFile key c) },
            log := s.log,
            calls := s.calls ++ [.MkdirAll (resolveLogPath key c) 0o755,
              .OpenFile (resolveLogFile key c) true true true 0o666] } := by
  unfold resolveLogFile at ho
  unfold setupLoggerFile resolveLogFile
  simp only [hm, ho, if_true, List.append_assoc, List.singleton_append]

/-- C9. Fatal startup failure: with the outcomes of directory creation and file
opening as inputs, `setupLoggerFile` panics if and only if directory creation
fails or file opening fails; it then panics with the message that tells to check
the service.yaml config and leaves the standard logger (its output included) as
it was; when directory creation fails the only filesystem call made is that
directory creation (no file is opened); when both succeed it returns with the
output of the logger set to the opened file. -/
theorem C9_setupLoggerFile_panic_iff (fs : FileSystem) (key : GoString) (c : Config)
    (s : State) :
    ((setupLoggerFile fs key c s).panicked = true ↔
      (fs.mkdirAllOk (resolveLogPath key c) = false ∨
        fs.openFileOk (resolveLogFile key c) = false)) ∧
    ((setupLoggerFile fs key c s).panicked = true →
      setupLoggerFile fs key c s
          = .panic setupPanicMessage (setupLoggerFile fs key c s).state ∧
      (setupLoggerFile fs key c s).state.std = s.std ∧
      (setupLoggerFile fs key c s).state.log = s.log) ∧
    (fs.mkdirAllOk (resolveLogPath key c) = false →
      (setupLoggerFile fs key c s).state.calls
        = s.calls ++ [.MkdirAll (resolveLogPath key c) 0o755]) ∧
    (fs.mkdirAllOk (resolveLogPath key c) = true →
      fs.openFileOk (resolveLogFile key c) = true →
      setupLoggerFile fs key c s =
        .ok { std := { s.std with Out := .File (resolveLogFile key c) },
              log := s.log,
              calls := s.calls ++ [.MkdirAll (resolveLogPath key c) 0o755,
                .OpenFile (resolveLogFile key c) true true true 0o666] }) := by
  cases hm : fs.mkdirAllOk (resolveLogPath key c) with
  | false =>
    rw [setupLoggerFile_mkdir_failed fs key c s hm]
    simp [Result.panicked, Result.state]
  | true =>
    cases ho : fs.openFileOk (resolveLogFile key c) with
    | false =>
      rw [setupLoggerFile_open_failed fs key c s hm ho]
      simp [Result.panicked, Result.state]
    | true =>
      rw [setupLoggerFile_ok fs key c s hm ho]
      simp [Result.panicked, Result.state]

/-- Witness of C9: on a filesystem that refuses to create directories
`setupLoggerFile` panics after the single call to `MkdirAll`, with the logger
untouched; on a filesystem where both calls succeed the output is the file
`/srv/app/logs/turbo.log`. -/
theorem C9_setupLoggerFile_panic_iff_witness :
    setupLoggerFile badFS "turbo_log_path".toList srvConfig initialState
      = .panic setupPanicMessage
          { initialState with calls := [.MkdirAll "/srv/app/logs".toList 0o755] } ∧
    setupLoggerFile goodFS "turbo_log_path".toList srvConfig initialState
      = .ok { std := { initialState.std with Out := .File "/srv/app/logs/turbo.log".toList },
              log := none,
              calls := [.MkdirAll "/srv/app/logs".toList 0o755,
                .OpenFile "/srv/app/logs/turbo.log".toList true true true 0o666] } := by
  have hd : resolveLogPath "turbo_log_path".toList srvConfig = "/srv/app/logs".toList := by
    decide
  have hf : resolveLogFile "turbo_log_path".toList srvConfig
      = "/srv/app/logs/turbo.log".toList := by decide
  have hbad := C9_setupLoggerFile_panic_iff badFS "turbo_log_path".toList srvConfig
    initialState
  have hgood := C9_setupLoggerFile_panic_iff goodFS "turbo_log_path".toList srvConfig
    initialState
  constructor
  · have hp := hbad.1.mpr (Or.inl rfl)
    have h1 := (hbad.2.1 hp).1
    have h2 := hbad.2.2.1 rfl
    rw [h1]
    rw [hd] at h2
    congr 1
  · have h3 := hgood.2.2.2 rfl rfl
    rw [h3, hd, hf]
    rfl

theorem initLogger_production (fs : FileSystem) (key : GoString) (c : Config) (s : State)
    (henv : c.Env = "production".toList) :
    initLogger fs key c s =
      match setupLoggerFile fs key c s with
      | .panic msg s1 => .panic msg s1
      | .ok s1 =>
        .ok { s1 with std := { Out := s1.std.Out, Formatter := .JSONFormatter,
                               Level := .InfoLevel, Hooks := s1.std.Hooks },
                      log := some .std } := by
  unfold initLogger
  simp only [henv, if_true]

theorem initLogger_production_ok (fs : FileSystem) (key : GoString) (c : Config) (s : State)
    (henv : c.Env = "production".toList)
    (hm : fs.mkdirAllOk (resolveLogPath key c) = true)
    (ho : fs.openFileOk (resolveLogFile key c) = true) :
    initLogger fs key c s =
      .ok { std := { Out := .File (resolveLogFile key c),
                     Formatter := .JSONFormatter,
                     Level := .InfoLevel,
                     Hooks := s.std.Hooks },
            log := some .std,
            calls := s.calls ++ [.MkdirAll (resolveLogPath key c) 0o755,
              .OpenFile (resolveLogFile key c) true true true 0o666] } := by
  rw [initLogger_production fs key c s henv, setupLoggerFile_ok fs key c s hm ho]

/-- C7. `initLogger` selects one of two configurations by whether `Env()` equals
`"production"`.  In production it returns exactly when `setupLoggerFile` does
(directory creation and file opening succeed), and then the formatter is the
JSON formatter, the level is Info, and the hooks are those registered before the
call; the hooks are untouched when it panics, too.  For every other environment
value it returns with the text formatter, standard error as output, level Debug
and `ContextHook` appended to the hooks of every level; `ContextHook.Levels` is
the list of all levels, which holds every level. -/
theorem C7_initLogger_selects (fs : FileSystem) (key : GoString) (c : Config) (s : State) :
    (c.Env = "production".toList →
      (initLogger fs key c s).state.std.Hooks = s.std.Hooks ∧
      ((initLogger fs key c s).panicked = (setupLoggerFile fs key c s).panicked) ∧
      (fs.mkdirAllOk (resolveLogPath key c) = true →
        fs.openFileOk (resolveLogFile key c) = true →
        initLogger fs key c s =
          .ok { std := { Out := .File (resolveLogFile key c),
                         Formatter := .JSONFormatter,
                         Level := .InfoLevel,
                         Hooks := s.std.Hooks },
                log := some .std,
                calls := s.calls ++ [.MkdirAll (resolveLogPath key c) 0o755,
                  .OpenFile (resolveLogFile key c) true true true 0o666] })) ∧
    (c.Env ≠ "production".toList →
      initLogger fs key c s =
        .ok { std := { Out := .Stderr,
                       Formatter := .TextFormatter,
                       Level := .DebugLevel,
                       Hooks := fun l => s.std.Hooks l ++ [.ContextHook] },
              log := some .std,
              calls := s.calls }) ∧
    ContextHook.Levels = AllLevels ∧
    (∀ l : Level, l ∈ ContextHook.Levels) := by
  refine ⟨?_, ?_, rfl, ?_⟩
  · intro henv
    have hinit := initLogger_production fs key c s henv
    rw [hinit]
    cases hm : fs.mkdirAllOk (resolveLogPath key c) with
    | false =>
      rw [setupLoggerFile_mkdir_failed fs key c s hm]
      simp [Result.panicked, Result.state]
    | true =>
      cases ho : fs.openFileOk (resolveLogFile key c) with
      | false =>
        rw [setupLoggerFile_open_failed fs key c s hm ho]
        simp [Result.panicked, Result.state]
      | true =>
        rw [setupLoggerFile_ok fs key c s hm ho]
        simp [Result.panicked, Result.state]
  · intro henv
    unfold initLogger
    simp only [henv, if_false]
    congr 2
    congr 1
    funext l
    cases l <;> simp [addHook, ContextHook.Levels, AllLevels]
  · intro l
    cases l <;> decide

/-- Witness of C7: the production configuration on a filesystem where both calls
succeed, the development configuration, and the configuration with an empty
environment name. -/
theorem C7_initLogger_selects_witness :
    initLogger goodFS "turbo_log_path".toList srvConfig initialState =
      .ok { std := { Out := .File (resolveLogFile "turbo_log_path".toList srvConfig),
                     Formatter := .JSONFormatter, Level := .InfoLevel,
                     Hooks := initialState.std.Hooks },
            log := some .std,
            calls := initialState.calls
              ++ [.MkdirAll (resolveLogPath "turbo_log_path".toList srvConfig) 0o755,
                .OpenFile (resolveLogFile "turbo_log_path".toList srvConfig)
                  true true true 0o666] } ∧
    initLogger badFS "turbo_log_path".toList devConfig initialState =
      .ok { std := { Out := .Stderr, Formatter := .TextFormatter, Level := .DebugLevel,
                     Hooks := fun l => initialState.std.Hooks l ++ [.ContextHook] },
            log := some .std,
            calls := initialState.calls } ∧
    initLogger badFS "turbo_log_path".toList unsetEnvConfig initialState =
      .ok { std := { Out := .Stderr, Formatter := .TextFormatter, Level := .DebugLevel,
                     Hooks := fun l => initialState.std.Hooks l ++ [.ContextHook] },
            log := some .std,
            calls := initialState.calls } :=
  ⟨((C7_initLogger_selects goodFS "turbo_log_path".toList srvConfig initialState).1
      (by decide)).2.2 rfl rfl,
   (C7_initLogger_selects badFS "turbo_log_path".toList devConfig initialState).2.1
      (by decide),
   (C7_initLogger_selects badFS "turbo_log_path".toList unsetEnvConfig initialState).2.1
      (by decide)⟩

/-- C8. `SetOutput` frame property: on every state `initLogger` returns (in
production or not) and for every destination, `SetOutput` returns, the output of
the shared logger is the destination, its formatter is the text formatter, and
its level and hooks (and the rest of the state) are what they were before the
call. -/
theorem C8_SetOutput_frame (fs : FileSystem) (key : GoString) (c : Config)
    (s0 s : State) (out : Writer) (h : initLogger fs key c s0 = .ok s) :
    SetOutput out s =
      .ok { std := { Out := out, Formatter := .TextFormatter,
                     Level := s.std.Level, Hooks := s.std.Hooks },
            log := s.log, calls := s.calls } := by
  have hlog : s.log = some .std := by
    unfold initLogger at h
    split at h
    · split at h
      · cases h
      · injection h with h
        rw [← h]
    · injection h with h
      rw [← h]
  unfold SetOutput
  rw [hlog]

/-- Witness of C8: `SetOutput` after the production initialisation keeps level
Info and the hooks, and replaces the file and the JSON formatter. -/
theorem C8_SetOutput_frame_witness :
    SetOutput (.other 1)
      { std := { Out := .File (resolveLogFile "turbo_log_path".toList srvConfig),
                 Formatter := .JSONFormatter, Level := .InfoLevel,
                 Hooks := initialState.std.Hooks },
        log := some .std,
        calls := initialState.calls
          ++ [.MkdirAll (resolveLogPath "turbo_log_path".toList srvConfig) 0o755,
            .OpenFile (resolveLogFile "turbo_log_path".toList srvConfig)
              true true true 0o666] } =
      .ok { std := { Out := .other 1, Formatter := .TextFormatter, Level := .InfoLevel,
                     Hooks := initialState.std.Hooks },
            log := some .std,
            calls := initialState.calls
              ++ [.MkdirAll (resolveLogPath "turbo_log_path".toList srvConfig) 0o755,
                .OpenFile (resolveLogFile "turbo_log_path".toList srvConfig)
                  true true true 0o666] } :=
  C8_SetOutput_frame goodFS "turbo_log_path".toList srvConfig initialState _ (.other 1)
    (initLogger_production_ok goodFS "turbo_log_path".toList srvConfig initialState
      (by decide) rfl rfl)

/-! ## `path.Clean`: fuel, loop invariant, idempotence -/

theorem dropWhile_length_le (p : Char → Bool) (l : List Char) :
    (l.dropWhile p).length ≤ l.length :=
  (List.dropWhile_sublist p).length_le

/-- The loop of `path.Clean` never runs out of fuel: any fuel of at least the
length of the unread part gives the same buffer. -/
theorem cleanLoop_fuel (rooted : Bool) (n : Nat) :
    ∀ (m : Nat) (rest out : List Char) (dd : Nat), rest.length ≤ n → rest.length ≤ m →
      cleanLoop rooted n rest out dd = cleanLoop rooted m rest out dd := by
  induction n with
  | zero =>
    intro m rest out dd hn _
    have hnil : rest = [] := List.length_eq_zero.mp (Nat.le_zero.mp hn)
    subst hnil
    cases m <;> simp [cleanLoop]
  | succ n ih =>
    intro m rest out dd hn hm
    cases rest with
    | nil => cases m <;> simp [cleanLoop]
    | cons c t =>
      cases m with
      | zero => simp at hm
      | succ m =>
        have htn : t.length ≤ n := by simpa using hn
        have htm : t.length ≤ m := by simpa using hm
        have httn : t.tail.length ≤ n := by
          have := List.length_tail t
          omega
        have httm : t.tail.length ≤ m := by
          have := List.length_tail t
          omega
        simp only [cleanLoop]
        split
        · exact ih _ _ _ _ htn htm
        · rename_i hc
          split
          · exact ih _ _ _ _ htn htm
          · split
            · split
              · exact ih _ _ _ _ httn httm
              · split
                · exact ih _ _ _ _ httn httm
                · exact ih _ _ _ _ httn httm
            · have hc' : (c != '/') = true := by simpa using hc
              have hd : (c :: t).dropWhile (· != '/') = t.dropWhile (· != '/') := by
                simp [List.dropWhile_cons, hc']
              rw [hd]
              have hdl := dropWhile_length_le (· != '/') t
              exact ih _ _ _ _ (by omega) (by omega)

/-- One iteration of the loop of `path.Clean` on a non-empty unread part. -/
theorem cleanLoop_cons (rooted : Bool) (n : Nat) (c : Char) (t out : List Char) (dd : Nat) :
    cleanLoop rooted (n + 1) (c :: t) out dd =
      if c == '/' then cleanLoop rooted n t out dd
      else if c == '.' && atElementEnd t then cleanLoop rooted n t out dd
      else if c == '.' && t.head? == some '.' && atElementEnd t.tail then
        if dd < out.length then cleanLoop rooted n t.tail (backtrack dd out) dd
        else if !rooted then
          cleanLoop rooted n t.tail (appendDotDot out) (appendDotDot out).length
        else cleanLoop rooted n t.tail out dd
      else
        cleanLoop rooted n ((c :: t).dropWhile (· != '/'))
          (((c :: t).takeWhile (· != '/')).reverse ++ addSlashIfNeeded rooted out) dd := by
  rw [cleanLoop]

theorem cleanLoop_eq_cleanRun (rooted : Bool) (n : Nat) (rest out : List Char) (dd : Nat)
    (h : rest.length ≤ n) : cleanLoop rooted n rest out dd = cleanRun rooted rest out dd :=
  cleanLoop_fuel rooted n rest.length rest out dd h (Nat.le_refl _)

theorem cleanRun_nil (rooted : Bool) (out : List Char) (dd : Nat) :
    cleanRun rooted [] out dd = out := by
  simp [cleanRun, cleanLoop]

theorem cleanRun_slash (rooted : Bool) (t out : List Char) (dd : Nat) :
    cleanRun rooted ('/' :: t) out dd = cleanRun rooted t out dd := by
  simp [cleanRun, cleanLoop]

theorem takeWhile_element (e rest : List Char) (he : ∀ ch ∈ e, ch ≠ '/')
    (hr : atElementEnd rest = true) :
    (e ++ rest).takeWhile (· != '/') = e ∧ (e ++ rest).dropWhile (· != '/') = rest := by
  induction e with
  | nil =>
    cases rest with
    | nil => simp
    | cons c t =>
      have hc : c = '/' := by simpa [atElementEnd] using hr
      subst hc
      simp
  | cons c e ih =>
    have hc : c ≠ '/' := he c (List.mem_cons_self _ _)
    have ih' := ih (fun ch hch => he ch (List.mem_cons_of_mem _ hch))
    simp [List.takeWhile_cons, List.dropWhile_cons, hc, ih'.1, ih'.2]

/-- One iteration on a real element followed by `/` or the end of the path:
the slash is added if needed and the element copied. -/
theorem cleanRun_element (rooted : Bool) (e rest out : List Char) (dd : Nat)
    (he : Normal e) (hr : atElementEnd rest = true) :
    cleanRun rooted (e ++ rest) out dd
      = cleanRun rooted rest (e.reverse ++ addSlashIfNeeded rooted out) dd := by
  obtain ⟨hne, hns, hdot, hdotdot⟩ := he
  cases e with
  | nil => exact absurd rfl hne
  | cons c e' =>
    have hc : c ≠ '/' := hns c (List.mem_cons_self _ _)
    have hc1 : (c == '/') = false := by simpa using hc
    have h2 : (c == '.' && atElementEnd (e' ++ rest)) = false := by
      cases e' with
      | nil =>
        have : c ≠ '.' := fun h => hdot (by rw [h])
        simp [this]
      | cons d e'' =>
        have hd : d ≠ '/' := hns d (by simp)
        simp [atElementEnd, hd]
    have h3 : (c == '.' && (e' ++ rest).head? == some '.'
        && atElementEnd (e' ++ rest).tail) = false := by
      cases e' with
      | nil =>
        have : c ≠ '.' := fun h => hdot (by rw [h])
        simp [this]
      | cons d e'' =>
        cases e'' with
        | nil =>
          by_cases hcd : c = '.'
          · have : d ≠ '.' := fun h => hdotdot (by rw [hcd, h])
            simp [this]
          · simp [hcd]
        | cons x e3 =>
          have hx : x ≠ '/' := hns x (by simp)
          simp [atElementEnd, hx]
    have htd := takeWhile_element (c :: e') rest hns hr
    have hlen : rest.length ≤ (e' ++ rest).length := by simp
    show cleanLoop rooted ((c :: (e' ++ rest)).length) (c :: (e' ++ rest)) out dd = _
    simp only [List.length_cons, cleanLoop, hc1, h2, h3, Bool.false_eq_true, if_false]
    rw [← List.cons_append, htd.1, htd.2]
    exact cleanLoop_eq_cleanRun rooted _ rest _ dd hlen

/-- One iteration on a `..` element that cannot backtrack in a path that is not
rooted: the element is appended and `dotdot` moves behind it. -/
theorem cleanRun_dotdot_append (rest out : List Char) (dd : Nat)
    (hr : atElementEnd rest = true) (hdd : ¬ dd < out.length) :
    cleanRun false ('.' :: '.' :: rest) out dd
      = cleanRun false rest (appendDotDot out) (appendDotDot out).length := by
  have h2 : atElementEnd ('.' :: rest) = false := by simp [atElementEnd]
  show cleanLoop false (rest.length + 1 + 1) ('.' :: '.' :: rest) out dd = _
  rw [cleanLoop_cons]
  simp only [h2, hr, hdd, List.head?_cons, List.tail_cons]
  simp only [show (('.' : Char) == '/') = false from by decide, Bool.false_eq_true, if_false,
    beq_self_eq_true, Bool.and_false, Bool.and_self, Bool.not_false, if_true]
  exact cleanLoop_eq_cleanRun false _ rest _ _ (Nat.le_succ _)

theorem addSlashIfNeeded_length_ge (rooted : Bool) (out : List Char) :
    out.length ≤ (addSlashIfNeeded rooted out).length := by
  unfold addSlashIfNeeded
  split <;> simp

theorem stackOf_length_ge (rooted : Bool) (base : List Char) (es : List (List Char)) :
    base.length ≤ (stackOf rooted base es).length := by
  induction es with
  | nil => simp [stackOf]
  | cons e es ih =>
    have := addSlashIfNeeded_length_ge rooted (stackOf rooted base es)
    simp only [stackOf, List.length_append, List.length_reverse]
    omega

theorem stackOf_cons_length_gt (rooted : Bool) (base e : List Char) (es : List (List Char))
    (he : e ≠ []) : base.length < (stackOf rooted base (e :: es)).length := by
  have h1 := addSlashIfNeeded_length_ge rooted (stackOf rooted base es)
  have h2 := stackOf_length_ge rooted base es
  have h3 : 0 < e.length := List.length_pos.mpr he
  simp only [stackOf, List.length_append, List.length_reverse]
  omega

theorem backtrack_cons (dd : Nat) (c : Char) (out : List Char) :
    backtrack dd (c :: out) =
      if (decide (dd < out.length) && c != '/') = true then backtrack dd out else out := rfl

theorem backtrack_to_slash (dd : Nat) (l S : List Char) (hl : ∀ ch ∈ l, ch ≠ '/')
    (hdd : dd ≤ S.length) : backtrack dd (l ++ '/' :: S) = S := by
  induction l with
  | nil => simp [backtrack]
  | cons c l ih =>
    have hc : c ≠ '/' := hl c (List.mem_cons_self _ _)
    have hlen : dd < (l ++ '/' :: S).length := by
      simp only [List.length_append, List.length_cons]
      omega
    have hcond : (decide (dd < (l ++ '/' :: S).length) && c != '/') = true := by
      simp only [hlen, decide_True, Bool.true_and]
      simpa using hc
    rw [List.cons_append, backtrack_cons, if_pos hcond]
    exact ih (fun ch hch => hl ch (List.mem_cons_of_mem _ hch))

theorem backtrack_to_base (dd : Nat) (l S : List Char) (hne : l ≠ [])
    (hl : ∀ ch ∈ l, ch ≠ '/') (hdd : S.length = dd) : backtrack dd (l ++ S) = S := by
  induction l with
  | nil => exact absurd rfl hne
  | cons c l ih =>
    have hc : c ≠ '/' := hl c (List.mem_cons_self _ _)
    cases l with
    | nil =>
      have hcond : ¬ (decide (dd < S.length) && c != '/') = true := by
        have : ¬ dd < S.length := by omega
        simp [this]
      rw [List.cons_append, List.nil_append, backtrack_cons, if_neg hcond]
    | cons d l =>
      have hlen : dd < (d :: l ++ S).length := by
        simp only [List.cons_append, List.length_cons, List.length_append]
        omega
      have hcond : (decide (dd < (d :: l ++ S).length) && c != '/') = true := by
        simp only [hlen, decide_True, Bool.true_and]
        simpa using hc
      rw [List.cons_append, backtrack_cons, if_pos hcond]
      exact ih (by simp) (fun ch hch => hl ch (List.mem_cons_of_mem _ hch))

theorem isBase_length (rooted : Bool) (base X : List Char) (hb : IsBase rooted base)
    (hX : base.length ≤ X.length)
    (hno : ¬ ((rooted && X.length != 1) || (!rooted && X.length != 0)) = true) :
    X.length = base.length := by
  cases rooted with
  | true =>
    have hb' : base = ['/'] := hb
    subst hb'
    simpa using hno
  | false =>
    have h0 : X.length = 0 := by simpa using hno
    omega

/-- Backtracking over the last real element gives the buffer this element was
appended to. -/
theorem backtrack_stackOf (rooted : Bool) (base e : List Char) (es : List (List Char))
    (hb : IsBase rooted base) (he : Normal e) :
    backtrack base.length (stackOf rooted base (e :: es)) = stackOf rooted base es := by
  obtain ⟨hne, hns, _, _⟩ := he
  have hrev : ∀ ch ∈ e.reverse, ch ≠ '/' := fun ch hch => hns ch (List.mem_reverse.mp hch)
  have hge := stackOf_length_ge rooted base es
  simp only [stackOf, addSlashIfNeeded]
  split
  · exact backtrack_to_slash _ _ _ hrev hge
  · rename_i hno
    exact backtrack_to_base _ _ _ (by simpa using hne) hrev
      (isBase_length rooted base _ hb hge hno)

theorem takeWhile_eq_nil_iff_atElementEnd (t : List Char) :
    t.takeWhile (· != '/') = [] ↔ atElementEnd t = true := by
  cases t with
  | nil => simp [atElementEnd]
  | cons c t =>
    by_cases hc : c = '/'
    · simp [atElementEnd, hc]
    · simp [atElementEnd, hc, List.takeWhile_cons]

/-- The element the default branch of the loop copies is a real element. -/
theorem normal_of_default (c : Char) (t : List Char) (h1 : (c == '/') = false)
    (h2 : (c == '.' && atElementEnd t) = false)
    (h3 : (c == '.' && t.head? == some '.' && atElementEnd t.tail) = false) :
    Normal ((c :: t).takeWhile (· != '/')) := by
  have hc : c ≠ '/' := by simpa using h1
  have hcons : (c :: t).takeWhile (· != '/') = c :: t.takeWhile (· != '/') := by
    simp [List.takeWhile_cons, hc]
  rw [hcons]
  refine ⟨by simp, ?_, ?_, ?_⟩
  · intro ch hch
    rcases List.mem_cons.mp hch with rfl | hin
    · exact hc
    · have := List.mem_takeWhile_imp hin
      simpa using this
  · intro heq
    injection heq with hc' ht
    have hend := (takeWhile_eq_nil_iff_atElementEnd t).mp ht
    simp [hc', hend] at h2
  · intro heq
    injection heq with hc' ht
    cases t with
    | nil => simp at ht
    | cons d t' =>
      by_cases hd : d = '/'
      · simp [List.takeWhile_cons, hd] at ht
      · have hd' : (d != '/') = true := by simpa using hd
        rw [List.takeWhile_cons, hd'] at ht
        simp only [if_true] at ht
        injection ht with hd2 ht'
        have hend := (takeWhile_eq_nil_iff_atElementEnd t').mp ht'
        simp [hc', hd2, hend] at h3

/-- The loop invariant of `path.Clean` is preserved: from a buffer made of a
base and real elements the loop ends in such a buffer. -/
theorem cleanLoop_inv (rooted : Bool) (n : Nat) :
    ∀ (rest out : List Char) (dd : Nat), CleanInv rooted out dd →
      ∃ dd', CleanInv rooted (cleanLoop rooted n rest out dd) dd' := by
  induction n with
  | zero =>
    intro rest out dd h
    exact ⟨dd, by simpa [cleanLoop] using h⟩
  | succ n ih =>
    intro rest out dd h
    cases rest with
    | nil => exact ⟨dd, by simpa [cleanLoop] using h⟩
    | cons c t =>
      rw [cleanLoop_cons]
      split
      · exact ih _ _ _ h
      · rename_i h1
        split
        · exact ih _ _ _ h
        · rename_i h2
          split
          · obtain ⟨base, es, hb, hes, hout, hdd⟩ := h
            split
            · rename_i hlt
              cases es with
              | nil =>
                rw [hout, hdd] at hlt
                simp [stackOf] at hlt
              | cons e es' =>
                apply ih
                refine ⟨base, es', hb, fun x hx => hes x (List.mem_cons_of_mem _ hx), ?_, hdd⟩
                rw [hout, hdd]
                exact backtrack_stackOf rooted base e es' hb (hes e (List.mem_cons_self _ _))
            · rename_i hnlt
              have hnil : es = [] := by
                cases es with
                | nil => rfl
                | cons e es' =>
                  have := stackOf_cons_length_gt rooted base e es'
                    (hes e (List.mem_cons_self _ _)).1
                  rw [hout, hdd] at hnlt
                  exact absurd this hnlt
              subst hnil
              have hout' : out = base := hout
              split
              · rename_i hroot
                apply ih
                have hr : rooted = false := by simpa using hroot
                subst hr
                obtain ⟨k, hk⟩ := hb
                refine ⟨appendDotDot out, [], ⟨k + 1, ?_⟩, by simp, rfl, rfl⟩
                rw [hout', hk]
                rfl
              · apply ih
                exact ⟨base, [], hb, hes, hout, hdd⟩
          · rename_i h3
            apply ih
            obtain ⟨base, es, hb, hes, hout, hdd⟩ := h
            have hnorm := normal_of_default c t (by simpa using h1) (by simpa using h2)
              (by simpa using h3)
            refine ⟨base, (c :: t).takeWhile (· != '/') :: es, hb, ?_, ?_, hdd⟩
            · intro x hx
              rcases List.mem_cons.mp hx with rfl | hin
              · exact hnorm
              · exact hes x hin
            · rw [hout]
              rfl

theorem isAbs_append_of_ne_nil (l m : List Char) (h : l ≠ []) :
    IsAbs (l ++ m) = IsAbs l := by
  cases l with
  | nil => exact absurd rfl h
  | cons c l => rfl

theorem appendDotDot_reverse (D : List Char) :
    (appendDotDot D).reverse
      = if 0 < D.length then D.reverse ++ ['/', '.', '.'] else ['.', '.'] := by
  unfold appendDotDot
  split
  · simp
  · rename_i h
    have : D = [] := List.length_eq_zero.mp (by omega)
    subst this
    simp

/-- Reading back a run of `..` elements from the empty buffer rebuilds it. -/
theorem cleanRun_dotdots (k : Nat) :
    ∀ rest : List Char, atElementEnd rest = true →
      cleanRun false ((dotdots k).reverse ++ rest) [] 0
        = cleanRun false rest (dotdots k) (dotdots k).length := by
  induction k with
  | zero =>
    intro rest _
    rfl
  | succ k ih =>
    intro rest hr
    show cleanRun false ((appendDotDot (dotdots k)).reverse ++ rest) [] 0
      = cleanRun false rest (appendDotDot (dotdots k)) (appendDotDot (dotdots k)).length
    rw [appendDotDot_reverse]
    split
    · rw [List.append_assoc, ih _ (by simp [atElementEnd])]
      show cleanRun false ('/' :: '.' :: '.' :: rest) _ _ = _
      rw [cleanRun_slash, cleanRun_dotdot_append rest _ _ hr (Nat.lt_irrefl _)]
    · rename_i h
      have hnil : dotdots k = [] := List.length_eq_zero.mp (by omega)
      rw [hnil]
      exact cleanRun_dotdot_append rest [] 0 hr (by simp)

theorem isBase_rootOf_length (rooted : Bool) (base : List Char) (hb : IsBase rooted base)
    (h : base.length ≤ (rootOf rooted).length) : base = rootOf rooted := by
  cases rooted with
  | true => exact hb
  | false =>
    have : base.length = 0 := by simpa [rootOf] using h
    exact List.length_eq_zero.mp this

/-- Reading back a buffer made of a base and real elements rebuilds it: `T` is
the buffer content without the leading `/` of a rooted path. -/
theorem cleanRun_stackOf (rooted : Bool) (base : List Char) (hb : IsBase rooted base)
    (es : List (List Char)) (hes : ∀ e ∈ es, Normal e) :
    ∃ T, (stackOf rooted base es).reverse = rootOf rooted ++ T ∧
      ∀ rest : List Char, atElementEnd rest = true →
        cleanRun rooted (T ++ rest) (rootOf rooted) (rootOf rooted).length
          = cleanRun rooted rest (stackOf rooted base es) base.length := by
  induction es with
  | nil =>
    cases rooted with
    | true =>
      have hb' : base = ['/'] := hb
      subst hb'
      exact ⟨[], rfl, fun rest _ => rfl⟩
    | false =>
      obtain ⟨k, hk⟩ := hb
      subst hk
      exact ⟨(dotdots k).reverse, rfl, fun rest hr => cleanRun_dotdots k rest hr⟩
  | cons e es ih =>
    obtain ⟨T, hT, hrun⟩ := ih (fun x hx => hes x (List.mem_cons_of_mem _ hx))
    have he := hes e (List.mem_cons_self _ _)
    have hge := stackOf_length_ge rooted base es
    by_cases hcond : ((rooted && (stackOf rooted base es).length != 1)
        || (!rooted && (stackOf rooted base es).length != 0)) = true
    · have hstack : stackOf rooted base (e :: es)
          = e.reverse ++ '/' :: stackOf rooted base es := by
        simp only [stackOf, addSlashIfNeeded, hcond, if_true]
      refine ⟨T ++ '/' :: e, ?_, ?_⟩
      · rw [hstack]
        simp [hT]
      · intro rest hr
        rw [List.append_assoc, hrun _ (by simp [atElementEnd])]
        show cleanRun rooted ('/' :: (e ++ rest)) _ _ = _
        rw [cleanRun_slash, cleanRun_element rooted e rest _ _ he hr]
        rfl
    · have hlen := isBase_length rooted base _ hb hge hcond
      have hbase : base = rootOf rooted := by
        apply isBase_rootOf_length rooted base hb
        cases rooted with
        | true =>
          have hb' : base = ['/'] := hb
          simp [hb', rootOf]
        | false =>
          have h0 : (stackOf false base es).length = 0 := by simpa using hcond
          omega
      have hX : stackOf rooted base es = rootOf rooted := by
        have hTlen : T.length = 0 := by
          have := congrArg List.length hT
          simp only [List.length_reverse, List.length_append] at this
          have hbl := congrArg List.length hbase
          omega
        have hTnil : T = [] := List.length_eq_zero.mp hTlen
        rw [hTnil, List.append_nil] at hT
        have := congrArg List.reverse hT
        rw [List.reverse_reverse] at this
        rw [this]
        cases rooted <;> rfl
      have hstack : stackOf rooted base (e :: es)
          = e.reverse ++ addSlashIfNeeded rooted (rootOf rooted) := by
        simp only [stackOf, hX]
      have hno : addSlashIfNeeded rooted (rootOf rooted) = rootOf rooted := by
        cases rooted <;> rfl
      refine ⟨e, ?_, ?_⟩
      · rw [hstack, hno]
        cases rooted <;> simp [rootOf]
      · intro rest hr
        rw [cleanRun_element rooted e rest _ _ he hr, hstack, hbase]

theorem isAbs_reverse_dotdots (k : Nat) : IsAbs (dotdots k).reverse = false := by
  induction k with
  | zero => rfl
  | succ k ih =>
    show IsAbs (appendDotDot (dotdots k)).reverse = false
    rw [appendDotDot_reverse]
    split
    · rename_i h
      rw [isAbs_append_of_ne_nil _ _ (by
        intro hnil
        have := congrArg List.length hnil
        simp only [List.length_reverse, List.length_nil] at this
        omega)]
      exact ih
    · rfl

theorem isAbs_reverse_stackOf (base : List Char) (hb : IsBase false base)
    (es : List (List Char)) (hes : ∀ e ∈ es, Normal e) :
    IsAbs (stackOf false base es).reverse = false := by
  induction es with
  | nil =>
    obtain ⟨k, hk⟩ := hb
    subst hk
    exact isAbs_reverse_dotdots k
  | cons e es ih =>
    have ih' := ih (fun x hx => hes x (List.mem_cons_of_mem _ hx))
    obtain ⟨hne, hns, _, _⟩ := hes e (List.mem_cons_self _ _)
    simp only [stackOf, addSlashIfNeeded, List.reverse_append, List.reverse_reverse]
    split
    · rename_i hcond
      have hXne : (stackOf false base es).reverse ≠ [] := by
        intro hnil
        have := congrArg List.length hnil
        simp only [List.length_reverse, List.length_nil] at this
        simp [this] at hcond
      rw [List.reverse_cons, List.append_assoc, isAbs_append_of_ne_nil _ _ hXne]
      exact ih'
    · rename_i hcond
      have hXnil : (stackOf false base es).reverse = [] := by
        have h0 : (stackOf false base es).length = 0 := by simpa using hcond
        simp [List.length_eq_zero.mp h0]
      rw [hXnil, List.nil_append]
      cases e with
      | nil => exact absurd rfl hne
      | cons c e' =>
        have hc : c ≠ '/' := hns c (List.mem_cons_self _ _)
        simp [IsAbs, hc]

theorem cleanInv_start (rooted : Bool) :
    CleanInv rooted (rootOf rooted) (rootOf rooted).length := by
  refine ⟨rootOf rooted, [], ?_, by simp, rfl, rfl⟩
  cases rooted with
  | true => exact rfl
  | false => exact ⟨0, rfl⟩

/-- The result of `path.Clean` on a non-empty path, in terms of the final
buffer, which satisfies the loop invariant. -/
theorem clean_shape (c : Char) (t : List Char) :
    ∃ out dd, CleanInv (c == '/') out dd ∧
      Clean (c :: t) = if out.length == 0 then ['.'] else out.reverse := by
  cases hc : c == '/' with
  | true =>
    obtain ⟨dd, hinv⟩ := cleanLoop_inv true (c :: t).length t ['/'] 1 (cleanInv_start true)
    refine ⟨_, dd, hinv, ?_⟩
    simp only [Clean, hc, if_true]
  | false =>
    obtain ⟨dd, hinv⟩ := cleanLoop_inv false (c :: t).length (c :: t) [] 0
      (cleanInv_start false)
    refine ⟨_, dd, hinv, ?_⟩
    simp only [Clean, hc, Bool.false_eq_true, if_false]

/-- A non-empty buffer that satisfies the loop invariant reads as a path that
`path.Clean` returns unchanged, rooted exactly when the invariant is the rooted
one. -/
theorem clean_of_cleanInv (rooted : Bool) (out : List Char) (dd : Nat)
    (h : CleanInv rooted out dd) (hne : out ≠ []) :
    Clean out.reverse = out.reverse ∧ IsAbs out.reverse = rooted := by
  obtain ⟨base, es, hb, hes, hout, _⟩ := h
  obtain ⟨T, hT, hrun⟩ := cleanRun_stackOf rooted base hb es hes
  have hfinal := hrun [] rfl
  rw [List.append_nil, cleanRun_nil, ← hout] at hfinal
  rw [← hout] at hT
  have hlen : (out.length == 0) = false := by
    simpa using hne
  cases rooted with
  | true =>
    have hT' : out.reverse = '/' :: T := hT
    rw [hT']
    refine ⟨?_, rfl⟩
    have hloop : cleanLoop true ('/' :: T).length T ['/'] 1 = out := by
      have hfuel : T.length ≤ ('/' :: T).length := Nat.le_succ _
      exact (cleanLoop_eq_cleanRun true _ T _ _ hfuel).trans hfinal
    simp only [Clean, beq_self_eq_true, if_true, hloop, hlen, Bool.false_eq_true, if_false]
    exact hT'
  | false =>
    have hT' : out.reverse = T := hT
    have habs : IsAbs out.reverse = false := by
      rw [hout]
      exact isAbs_reverse_stackOf base hb es hes
    refine ⟨?_, habs⟩
    rw [hT'] at habs ⊢
    cases T with
    | nil =>
      have : out = [] := by simpa using hT'
      exact absurd this hne
    | cons c' T' =>
      have hc' : (c' == '/') = false := habs
      have hloop : cleanLoop false (c' :: T').length (c' :: T') [] 0 = out := by
        exact (cleanLoop_eq_cleanRun false _ _ _ _ (Nat.le_refl _)).trans hfinal
      simp only [Clean, hc', Bool.false_eq_true, if_false, hloop, hlen]
      exact hT'

/-- `path.Clean` is idempotent: a cleaned path is returned unchanged. -/
theorem Clean_idempotent (p : GoString) : Clean (Clean p) = Clean p := by
  cases p with
  | nil => decide
  | cons c t =>
    obtain ⟨out, dd, hinv, hclean⟩ := clean_shape c t
    rw [hclean]
    by_cases hnil : out = []
    · subst hnil
      decide
    · have hlen : (out.length == 0) = false := by simpa using hnil
      simp only [hlen, Bool.false_eq_true, if_false]
      exact (clean_of_cleanInv _ out dd hinv hnil).1

/-- `path.Clean` keeps a path rooted or not rooted. -/
theorem isAbs_Clean (p : GoString) : IsAbs (Clean p) = IsAbs p := by
  cases p with
  | nil => decide
  | cons c t =>
    obtain ⟨out, dd, hinv, hclean⟩ := clean_shape c t
    rw [hclean]
    by_cases hnil : out = []
    · subst hnil
      obtain ⟨base, es, hb, _, hout, _⟩ := hinv
      have hge := stackOf_length_ge (c == '/') base es
      rw [← hout] at hge
      cases hc : c == '/' with
      | true =>
        rw [hc] at hb
        have hb' : base = ['/'] := hb
        rw [hb'] at hge
        simp at hge
      | false =>
        simp [IsAbs, hc]
    · have hlen : (out.length == 0) = false := by simpa using hnil
      simp only [hlen, Bool.false_eq_true, if_false]
      exact (clean_of_cleanInv _ out dd hinv hnil).2

theorem isAbs_append_slash (a b : GoString) (h : IsAbs a = true) :
    IsAbs (a ++ "/".toList ++ b) = true := by
  obtain ⟨t, rfl⟩ := (isAbs_iff a).mp h
  rfl

/-! ## The invariant of log-directory resolution -/

/-- C4 as stated fails: with an empty configured log path and an empty service
root the resolved directory is `"log"`, which is clean but not absolute. -/
theorem C4_counterexample :
    ¬ (IsAbs (resolveLogPath "turbo_log_path".toList emptyConfig) = true ∧
       Clean (resolveLogPath "turbo_log_path".toList emptyConfig)
         = resolveLogPath "turbo_log_path".toList emptyConfig) := by
  decide

/-- C4, amended. For every configuration the directory `setupLoggerFile` passes
to directory creation and uses for the log file is filesystem-clean
(`path.Clean` returns it unchanged).  It is absolute when the configured log
path is absolute, and when the service root (`ServiceRootPath()`) is non-empty
after trimming and `ServiceRootPathAbsolute()` is absolute.  When the configured
log path is not absolute and the service root is empty or white space only, the
directory is not absolute. -/
theorem C4_resolveLogPath_clean (key : GoString) (c : Config) :
    Clean (resolveLogPath key c) = resolveLogPath key c ∧
    (IsAbs (c.configs key) = true ∨
      (TrimSpace c.ServiceRootPath ≠ [] ∧ IsAbs c.ServiceRootPathAbsolute = true) →
        IsAbs (resolveLogPath key c) = true) ∧
    (IsAbs (c.configs key) = false → (∀ ch ∈ c.ServiceRootPath, isSpace ch = true) →
        IsAbs (resolveLogPath key c) = false) := by
  refine ⟨?_, ?_, ?_⟩
  · unfold resolveLogPath
    exact Clean_idempotent _
  · intro h
    rcases h with habs | ⟨hroot, hrabs⟩
    · have := (resolveLogPath_of_isAbs key c habs)
      rw [this, isAbs_Clean]
      exact habs
    · by_cases hblank : ∀ ch ∈ c.configs key, isSpace ch = true
      · rw [resolveLogPath_of_blank key c hblank, isAbs_Clean]
        simp only [(trimSpace_length_ne_zero_iff _).mpr hroot, if_true]
        obtain ⟨t, ht⟩ := (isAbs_iff _).mp hrabs
        rw [ht]
        rfl
      · have hnb : TrimSpace (c.configs key) ≠ [] :=
          fun hnil => hblank ((trimSpace_eq_nil_iff _).mp hnil)
        rw [resolveLogPath_of_not_blank key c hnb, isAbs_Clean]
        split
        · exact isAbs_append_slash _ _ hrabs
        · rename_i hcond
          simp only [(trimSpace_length_ne_zero_iff _).mpr hroot, Bool.and_true,
            Bool.not_eq_true', Bool.not_eq_false] at hcond
          simpa using hcond
  · intro hrel hroot
    have hr0 : ((TrimSpace c.ServiceRootPath).length != 0) = false := by
      have := (trimSpace_eq_nil_iff _).mpr hroot
      simp [this]
    by_cases hblank : ∀ ch ∈ c.configs key, isSpace ch = true
    · rw [resolveLogPath_of_blank key c hblank, isAbs_Clean]
      simp only [hr0, Bool.false_eq_true, if_false]
      rfl
    · have hnb : TrimSpace (c.configs key) ≠ [] :=
        fun hnil => hblank ((trimSpace_eq_nil_iff _).mp hnil)
      rw [resolveLogPath_of_not_blank key c hnb, isAbs_Clean]
      simp only [hr0, Bool.and_false, Bool.false_eq_true, if_false]
      exact hrel

/-- Witness of C4: with service root `/srv/app` and configured path `logs` the
directory is clean and absolute; with the empty configuration it is clean and
not absolute. -/
theorem C4_resolveLogPath_clean_witness :
    (Clean (resolveLogPath "turbo_log_path".toList srvConfig)
        = resolveLogPath "turbo_log_path".toList srvConfig ∧
      IsAbs (resolveLogPath "turbo_log_path".toList srvConfig) = true) ∧
    (Clean (resolveLogPath "turbo_log_path".toList emptyConfig)
        = resolveLogPath "turbo_log_path".toList emptyConfig ∧
      IsAbs (resolveLogPath "turbo_log_path".toList emptyConfig) = false) :=
  ⟨⟨(C4_resolveLogPath_clean "turbo_log_path".toList srvConfig).1,
    (C4_resolveLogPath_clean "turbo_log_path".toList srvConfig).2.1
      (Or.inr ⟨by decide, by decide⟩)⟩,
   ⟨(C4_resolveLogPath_clean "turbo_log_path".toList emptyConfig).1,
    (C4_resolveLogPath_clean "turbo_log_path".toList emptyConfig).2.2
      (by decide) (by decide)⟩⟩

end Turbo
